import Mathlib

/-!
Shallow embedding of `src/webserver.go` (package main): an in-memory
price store `map[string]dollars` guarded by a `sync.RWMutex`, exposed
through five HTTP handlers (`list`, `price`, `create`, `update`,
`delete`).  Handlers are embedded as pure functions from the store
state (an association list standing for the Go map) and the request's
query parameters to the new state and an HTTP response.  Every handler
body in the Go source runs entirely inside one lock acquisition, so a
handler is one atomic step; a concurrent execution is an arbitrary
sequential interleaving of these atomic steps.

The Go value type is `dollars float32`; prices enter the program only
through `strconv.ParseFloat(priceStr, 32)`.  A parsed finite value is
modelled exactly, as a sign together with a decimal mantissa and a
power-of-ten exponent (every accepted literal denotes such a value);
float32 rounding of an in-range value is not modelled, since no
property in question depends on it, while the out-of-range checks of
`ParseFloat` (overflow to ±Inf, underflow to 0) are modelled exactly
at the float32 rounding boundaries.
-/

/-- Value of a Go float32 as stored in `dollars`: a finite value
`(-1)^neg * mant * 10^exp10` (exact decimal value of the accepted
literal), NaN, or a signed infinity. -/
inductive FloatVal : Type where
  | finite (neg : Bool) (mant : ℕ) (exp10 : ℤ) : FloatVal
  | nan : FloatVal
  | inf (neg : Bool) : FloatVal
deriving DecidableEq

/-- The Go type `dollars float32`. -/
abbrev dollars := FloatVal

/-- Numeric value of a decimal digit run, most significant first. -/
def digitsToNat (ds : List Char) : ℕ :=
  ds.foldl (fun a c => 10 * a + (c.toNat - 48)) 0

/-- Model of the `special` recognizer inside `strconv.ParseFloat`: an
optional sign followed by a case-insensitive `inf` or `infinity`, or an
unsigned case-insensitive `nan`. -/
def parseSpecial (cs : List Char) : Option FloatVal :=
  match cs with
  | '+' :: rest => if isInfWord rest then some (.inf false) else none
  | '-' :: rest => if isInfWord rest then some (.inf true) else none
  | rest =>
      if isInfWord rest then some (.inf false)
      else if rest.map Char.toLower = ['n', 'a', 'n'] then some .nan
      else none
where
  /-- Case-insensitive match of `inf` or `infinity`. -/
  isInfWord (cs : List Char) : Bool :=
    cs.map Char.toLower = ['i', 'n', 'f'] ∨
      cs.map Char.toLower = ['i', 'n', 'f', 'i', 'n', 'i', 't', 'y']

/-- Model of the decimal-literal syntax accepted by
`strconv.ParseFloat`: optional sign, digits with an optional fraction
part (at least one digit overall), optional `e`/`E` exponent with
optional sign and at least one digit.  Hexadecimal floats and
digit-separating underscores, which the claims never exercise, are not
modelled.  Returns the sign, the mantissa read as one digit run, and
the power-of-ten exponent, so that the literal's exact value is
`(-1)^neg * mant * 10^exp10`. -/
def parseDecimal (cs : List Char) : Option (Bool × ℕ × ℤ) :=
  let signAndRest : Bool × List Char :=
    match cs with
    | '+' :: r => (false, r)
    | '-' :: r => (true, r)
    | r => (false, r)
  let neg := signAndRest.1
  let ipSplit := signAndRest.2.span Char.isDigit
  let ip := ipSplit.1
  let fpSplit : List Char × List Char :=
    match ipSplit.2 with
    | '.' :: r => r.span Char.isDigit
    | r => ([], r)
  let fp := fpSplit.1
  if ip.isEmpty ∧ fp.isEmpty then none
  else
    let mant := digitsToNat (ip ++ fp)
    match fpSplit.2 with
    | [] => some (neg, mant, -(fp.length : ℤ))
    | 'e' :: r => parseExponent neg mant fp.length r
    | 'E' :: r => parseExponent neg mant fp.length r
    | _ => none
where
  /-- Parse the exponent digits (with optional sign) and combine them
  with the fraction length; any trailing characters make the whole
  literal invalid. -/
  parseExponent (neg : Bool) (mant fplen : ℕ) (cs : List Char) :
      Option (Bool × ℕ × ℤ) :=
    let signAndRest : Bool × List Char :=
      match cs with
      | '+' :: r => (false, r)
      | '-' :: r => (true, r)
      | r => (false, r)
    let edsSplit := signAndRest.2.span Char.isDigit
    if edsSplit.1.isEmpty ∨ ¬ edsSplit.2.isEmpty then none
    else
      let e : ℤ := if signAndRest.1 then -(digitsToNat edsSplit.1 : ℤ)
                   else (digitsToNat edsSplit.1 : ℤ)
      some (neg, mant, e - fplen)

/-- Whether `mant * 10^exp10` reaches the smallest magnitude that
float32 round-to-nearest-even sends to +Inf, namely the midpoint
`2^128 - 2^103` between the largest finite float32 and `2^128`;
`ParseFloat(_, 32)` reports such a literal as out of range. -/
def decOverflow (mant : ℕ) (exp10 : ℤ) : Bool :=
  if 0 ≤ exp10 then 2 ^ 128 - 2 ^ 103 ≤ mant * 10 ^ exp10.toNat
  else (2 ^ 128 - 2 ^ 103) * 10 ^ (-exp10).toNat ≤ mant

/-- Whether `mant * 10^exp10` is nonzero yet no larger than `2^(-150)`,
half the smallest subnormal float32, so that rounding sends it to 0;
`ParseFloat(_, 32)` reports such a literal as out of range. -/
def decUnderflow (mant : ℕ) (exp10 : ℤ) : Bool :=
  mant ≠ 0 ∧
    (if 0 ≤ exp10 then mant * 2 ^ 150 * 10 ^ exp10.toNat ≤ 1
     else mant * 2 ^ 150 ≤ 10 ^ (-exp10).toNat)

/-- Model of `strconv.ParseFloat(s, 32)` as called by the handlers:
`none` exactly when the Go call returns a non-nil error, i.e. on a
syntax error or when a finite literal is out of float32 range. -/
def parseFloat32 (s : String) : Option FloatVal :=
  match parseSpecial s.toList with
  | some v => some v
  | none =>
      match parseDecimal s.toList with
      | none => none
      | some (neg, mant, exp10) =>
          if decOverflow mant exp10 ∨ decUnderflow mant exp10 then none
          else some (.finite neg mant exp10)

/-- Decimal digit characters of `n`, most significant first; fuel-based
so that it computes by iteration (any fuel above the digit count gives
the same answer). -/
def natDigitsAux : ℕ → ℕ → List Char → List Char
  | 0, _, acc => acc
  | fuel + 1, n, acc =>
      if n < 10 then Nat.digitChar n :: acc
      else natDigitsAux fuel (n / 10) (Nat.digitChar (n % 10) :: acc)

/-- Decimal digit characters of `n`, most significant first. -/
def natDigits (n : ℕ) : List Char := natDigitsAux (n + 1) n []

/-- The magnitude `mant * 10^exp10` expressed in hundredths and rounded
to the nearest integer, ties to even — the rounding Go applies when
formatting a float with two fraction digits. -/
def centsOf (mant : ℕ) (exp10 : ℤ) : ℕ :=
  if 0 ≤ exp10 + 2 then mant * 10 ^ (exp10 + 2).toNat
  else
    let D := 10 ^ (-(exp10 + 2)).toNat
    let f := mant / D
    let r := mant % D
    if 2 * r < D then f
    else if D < 2 * r then f + 1
    else if f % 2 = 0 then f else f + 1

/-- Character list of `fmt.Sprintf("%.2f", v)` for a finite value:
optional minus sign, integer digits, a dot, exactly two fraction
digits. -/
def fmtF2 (neg : Bool) (mant : ℕ) (exp10 : ℤ) : List Char :=
  let c := centsOf mant exp10
  (if neg then ['-'] else []) ++
    natDigits (c / 100) ++ '.' :: [Nat.digitChar (c / 10 % 10), Nat.digitChar (c % 10)]

/-- The `String` method of `dollars`: `fmt.Sprintf("$%.2f", d)`.  The
`%f` verb renders NaN as `NaN` and the infinities as `+Inf` / `-Inf`. -/
def dollars.String (d : dollars) : String :=
  match d with
  | .finite neg mant exp10 => String.mk ('$' :: fmtF2 neg mant exp10)
  | .nan => "$NaN"
  | .inf neg => if neg then "$-Inf" else "$+Inf"

/-- Query parameters of a request, as the handlers read them:
`req.URL.Query().Get(key)` yields the parameter's value, or the empty
string when the parameter is absent. -/
structure Request where
  item : Option String := none
  price : Option String := none

/-- Model of `url.Values.Get`: the value, or `""` when absent. -/
def queryGet (p : Option String) : String := p.getD ""

/-- An HTTP response: the status code (200 unless a handler calls
`WriteHeader`) and the accumulated body text. -/
structure Response where
  status : ℕ
  body : String
deriving DecidableEq

/-- Go map read `db.items[item]`. -/
def mapGet : List (String × dollars) → String → Option dollars
  | [], _ => none
  | (k, v) :: rest, item => if k = item then some v else mapGet rest item

/-- Go map write `db.items[item] = v`: replace the entry if the key is
present, otherwise add one. -/
def mapSet : List (String × dollars) → String → dollars → List (String × dollars)
  | [], item, v => [(item, v)]
  | (k, w) :: rest, item, v =>
      if k = item then (item, v) :: rest else (k, w) :: mapSet rest item v

/-- Go built-in `delete(db.items, item)`: drop the entries with the
given key. -/
def mapDelete : List (String × dollars) → String → List (String × dollars)
  | [], _ => []
  | (k, w) :: rest, item =>
      if k = item then mapDelete rest item else (k, w) :: mapDelete rest item

/-- Go `%q` of a plain item name (quotation marks around the text; the
escaping `%q` applies to special characters is not modelled, as no
claim uses a name containing one). -/
def goQuote (s : String) : String := "\"" ++ s ++ "\""

/-- The `database` struct: the items map.  The `sync.RWMutex` field is
represented by handlers being atomic steps rather than by data. -/
structure database where
  items : List (String × dollars)
deriving DecidableEq

/-- Handler `db.list`: one `name: $price` line per entry, in map
iteration order (modelled by list order), status 200. -/
def database.list (db : database) : Response :=
  ⟨200, db.items.foldl (fun acc e => acc ++ e.1 ++ ": " ++ dollars.String e.2 ++ "\n") ""⟩

/-- Handler `db.price`: the item's price line, or 404 `no such item`. -/
def database.price (db : database) (req : Request) : Response :=
  let item := queryGet req.item
  match mapGet db.items item with
  | some price => ⟨200, dollars.String price ++ "\n"⟩
  | none => ⟨404, "no such item: " ++ goQuote item ++ "\n"⟩

/-- Handler `db.create`: parse the price (400 `invalid price` on
failure), then insert unless the item exists (409 `item already
exists`). -/
def database.create (db : database) (req : Request) : database × Response :=
  let item := queryGet req.item
  let priceStr := queryGet req.price
  match parseFloat32 priceStr with
  | none => (db, ⟨400, "invalid price: " ++ goQuote priceStr ++ "\n"⟩)
  | some price =>
      match mapGet db.items item with
      | some _ => (db, ⟨409, "item already exists: " ++ goQuote item ++ "\n"⟩)
      | none =>
          (⟨mapSet db.items item price⟩,
           ⟨200, "created " ++ item ++ ": " ++ dollars.String price ++ "\n"⟩)

/-- Handler `db.update`: parse the price (400 `invalid price` on
failure), then overwrite if the item exists (404 `no such item`
otherwise). -/
def database.update (db : database) (req : Request) : database × Response :=
  let item := queryGet req.item
  let priceStr := queryGet req.price
  match parseFloat32 priceStr with
  | none => (db, ⟨400, "invalid price: " ++ goQuote priceStr ++ "\n"⟩)
  | some price =>
      match mapGet db.items item with
      | none => (db, ⟨404, "no such item: " ++ goQuote item ++ "\n"⟩)
      | some _ =>
          (⟨mapSet db.items item price⟩,
           ⟨200, "updated " ++ item ++ ": " ++ dollars.String price ++ "\n"⟩)

/-- Handler `db.delete`: remove the item's entry if present (404 `no
such item` otherwise). -/
def database.delete (db : database) (req : Request) : database × Response :=
  let item := queryGet req.item
  match mapGet db.items item with
  | none => (db, ⟨404, "no such item: " ++ goQuote item ++ "\n"⟩)
  | some _ => (⟨mapDelete db.items item⟩, ⟨200, "deleted " ++ item ++ "\n"⟩)

/-- The store as seeded in `main`: `{"shoes": 50, "socks": 5}`. -/
def seedDB : database :=
  ⟨[("shoes", .finite false 50 0), ("socks", .finite false 5 0)]⟩

/-- Helper: the number of entries of the map carrying a given key. -/
def countKey (l : List (String × dollars)) (k : String) : ℕ :=
  (l.filter fun e => e.1 = k).length

theorem mapGet_mapSet_self (l : List (String × dollars)) (k : String) (v : dollars) :
    mapGet (mapSet l k v) k = some v := by
  induction l with
  | nil => simp [mapSet, mapGet]
  | cons e rest ih =>
      obtain ⟨a, b⟩ := e
      by_cases h : a = k <;> simp [mapSet, mapGet, h, ih]

theorem mapGet_mapSet_ne (l : List (String × dollars)) (k m : String) (v : dollars)
    (h : m ≠ k) : mapGet (mapSet l k v) m = mapGet l m := by
  induction l with
  | nil => simp [mapSet, mapGet, Ne.symm h]
  | cons e rest ih =>
      obtain ⟨a, b⟩ := e
      by_cases ha : a = k
      · subst ha
        simp [mapSet, mapGet, Ne.symm h]
      · simp [mapSet, mapGet, ha, ih]

theorem mapGet_mapDelete_self (l : List (String × dollars)) (k : String) :
    mapGet (mapDelete l k) k = none := by
  induction l with
  | nil => simp [mapDelete, mapGet]
  | cons e rest ih =>
      obtain ⟨a, b⟩ := e
      by_cases h : a = k <;> simp [mapDelete, mapGet, h, ih]

theorem mapGet_mapDelete_ne (l : List (String × dollars)) (k m : String)
    (h : m ≠ k) : mapGet (mapDelete l k) m = mapGet l m := by
  induction l with
  | nil => simp [mapDelete, mapGet]
  | cons e rest ih =>
      obtain ⟨a, b⟩ := e
      by_cases ha : a = k
      · subst ha
        simp [mapDelete, mapGet, Ne.symm h, ih]
      · simp [mapDelete, mapGet, ha, ih]

theorem mapSet_absent (l : List (String × dollars)) (k : String) (v : dollars)
    (h : mapGet l k = none) : mapSet l k v = l ++ [(k, v)] := by
  induction l with
  | nil => simp [mapSet]
  | cons e rest ih =>
      obtain ⟨a, b⟩ := e
      by_cases ha : a = k
      · simp [mapGet, ha] at h
      · simp [mapGet, ha] at h
        simp [mapSet, ha, ih h]

theorem countKey_eq_zero (l : List (String × dollars)) (k : String)
    (h : mapGet l k = none) : countKey l k = 0 := by
  induction l with
  | nil => simp [countKey]
  | cons e rest ih =>
      obtain ⟨a, b⟩ := e
      by_cases ha : a = k
      · simp [mapGet, ha] at h
      · simp [mapGet, ha] at h
        simpa [countKey, ha] using ih h

theorem countKey_mapSet_new (l : List (String × dollars)) (k : String) (v : dollars)
    (h : mapGet l k = none) : countKey (mapSet l k v) k = 1 := by
  rw [mapSet_absent l k v h]
  have h0 := countKey_eq_zero l k h
  simp only [countKey] at h0 ⊢
  simp [List.filter_append, h0]

theorem digitChar_isDigit (n : ℕ) (h : n < 10) : (Nat.digitChar n).isDigit = true := by
  interval_cases n <;> decide

theorem natDigitsAux_eq_append (fuel : ℕ) :
    ∀ (n : ℕ) (acc : List Char),
      ∃ pre, natDigitsAux fuel n acc = pre ++ acc ∧ ∀ c ∈ pre, c.isDigit = true := by
  induction fuel with
  | zero => exact fun n acc => ⟨[], rfl, by simp⟩
  | succ fuel ih =>
      intro n acc
      by_cases h : n < 10
      · exact ⟨[Nat.digitChar n], by simp [natDigitsAux, h],
          by simp [digitChar_isDigit n h]⟩
      · obtain ⟨pre, hpre, hd⟩ := ih (n / 10) (Nat.digitChar (n % 10) :: acc)
        refine ⟨pre ++ [Nat.digitChar (n % 10)], ?_, ?_⟩
        · simp [natDigitsAux, h, hpre]
        · intro c hc
          rcases List.mem_append.mp hc with hc | hc
          · exact hd c hc
          · simp at hc
            subst hc
            exact digitChar_isDigit _ (Nat.mod_lt n (by norm_num))

theorem natDigits_digits (n : ℕ) : ∀ c ∈ natDigits n, c.isDigit = true := by
  obtain ⟨pre, hpre, hd⟩ := natDigitsAux_eq_append (n + 1) n []
  intro c hc
  rw [natDigits, hpre] at hc
  simp at hc
  exact hd c hc

theorem natDigits_ne_nil (n : ℕ) : natDigits n ≠ [] := by
  rw [natDigits]
  by_cases h : n < 10
  · simp [natDigitsAux, h]
  · obtain ⟨pre, hpre, _⟩ := natDigitsAux_eq_append n (n / 10) [Nat.digitChar (n % 10)]
    simp [natDigitsAux, h, hpre]

/-- Helper: drop one leading minus sign. -/
def stripMinus (l : List Char) : List Char :=
  match l with
  | [] => []
  | c :: r => if c = '-' then r else c :: r

/-- Helper: the shape `digits . d d` — a nonempty run of digits, a dot,
and exactly two more digits. -/
def isIntTwoFrac (l : List Char) : Bool :=
  match l.reverse with
  | o :: t :: d :: ds => o.isDigit && t.isDigit && (d == '.') && (! ds.isEmpty) && ds.all Char.isDigit
  | _ => false

/-- Helper: the canonical money shape claimed by the spec — `$`, an
optional minus sign, digits, a dot, exactly two fraction digits. -/
def isMoneyForm (s : String) : Bool :=
  match s.data with
  | c :: rest => c == '$' && isIntTwoFrac (stripMinus rest)
  | [] => false

theorem stripMinus_minus (l : List Char) : stripMinus ('-' :: l) = l := by
  simp [stripMinus]

theorem stripMinus_digit (c : Char) (l : List Char) (h : c.isDigit = true) :
    stripMinus (c :: l) = c :: l := by
  have hc : c ≠ '-' := by
    intro hc
    subst hc
    exact absurd h (by decide)
  simp [stripMinus, hc]

theorem isIntTwoFrac_digits (L : List Char) (t o : Char)
    (hL : L ≠ []) (hLd : ∀ c ∈ L, c.isDigit = true)
    (ht : t.isDigit = true) (ho : o.isDigit = true) :
    isIntTwoFrac (L ++ '.' :: [t, o]) = true := by
  have hrev : (L ++ '.' :: [t, o]).reverse = o :: t :: '.' :: L.reverse := by
    simp
  rw [isIntTwoFrac, hrev]
  simp [ht, ho, List.all_eq_true, hL]
  exact fun c hc => hLd c hc

theorem isMoneyForm_finite (neg : Bool) (mant : ℕ) (exp10 : ℤ) :
    isMoneyForm (dollars.String (.finite neg mant exp10)) = true := by
  have hbody : (dollars.String (.finite neg mant exp10)).data = '$' :: fmtF2 neg mant exp10 := rfl
  rw [isMoneyForm, hbody]
  have hfrac : isIntTwoFrac (stripMinus (fmtF2 neg mant exp10)) = true := by
    rw [fmtF2]
    set c := centsOf mant exp10 with hc
    have hstrip : stripMinus ((if neg then ['-'] else []) ++ natDigits (c / 100) ++
        '.' :: [Nat.digitChar (c / 10 % 10), Nat.digitChar (c % 10)]) =
        natDigits (c / 100) ++ '.' :: [Nat.digitChar (c / 10 % 10), Nat.digitChar (c % 10)] := by
      cases neg
      · simp only [if_neg Bool.false_ne_true, List.nil_append]
        obtain ⟨d, rest, hd⟩ := List.exists_cons_of_ne_nil (natDigits_ne_nil (c / 100))
        rw [hd, List.cons_append]
        have hdig : d.isDigit = true := natDigits_digits (c / 100) d (hd ▸ List.mem_cons_self d rest)
        rw [stripMinus_digit d _ hdig]
      · simp only [if_pos rfl, List.singleton_append, List.cons_append]
        exact stripMinus_minus _
    rw [hstrip]
    exact isIntTwoFrac_digits _ _ _ (natDigits_ne_nil _) (natDigits_digits _)
      (digitChar_isDigit _ (Nat.mod_lt _ (by norm_num)))
      (digitChar_isDigit _ (Nat.mod_lt _ (by norm_num)))
  simp [hfrac]

/-- C1: for a name not present in the store and a price string the
parser accepts, create succeeds (status 200) and an immediately
following price lookup succeeds and returns the price parsed from the
string. -/
theorem C1_create_then_get (db : database) (n p : String) (v : dollars)
    (habs : mapGet db.items n = none) (hp : parseFloat32 p = some v) :
    (db.create ⟨some n, some p⟩).2.status = 200 ∧
    mapGet (db.create ⟨some n, some p⟩).1.items n = some v ∧
    (db.create ⟨some n, some p⟩).1.price ⟨some n, none⟩ =
      ⟨200, dollars.String v ++ "\n"⟩ := by
  have hstep : db.create ⟨some n, some p⟩ =
      (⟨mapSet db.items n v⟩,
       ⟨200, "created " ++ n ++ ": " ++ dollars.String v ++ "\n"⟩) := by
    simp [database.create, queryGet, hp, habs]
  rw [hstep]
  refine ⟨rfl, mapGet_mapSet_self _ _ _, ?_⟩
  simp [database.price, queryGet, mapGet_mapSet_self]

/-- Witness for C1 at the seeded store, item `widget`, price `9.5`. -/
theorem C1_witness :
    (seedDB.create ⟨some "widget", some "9.5"⟩).2.status = 200 ∧
    mapGet (seedDB.create ⟨some "widget", some "9.5"⟩).1.items "widget" =
      some (.finite false 95 (-1)) ∧
    (seedDB.create ⟨some "widget", some "9.5"⟩).1.price ⟨some "widget", none⟩ =
      ⟨200, dollars.String (.finite false 95 (-1)) ++ "\n"⟩ :=
  C1_create_then_get seedDB "widget" "9.5" (.finite false 95 (-1)) (by decide) (by decide)

/-- C2: creating an already-present name fails with 409 and the exact
`item already exists` body, returning the store untouched (so the
stored value is unchanged); consequently the second of two consecutive
creates of the same name with a parseable price always fails with
409. -/
theorem C2_create_conflict (db : database) (n p : String) (v w : dollars) :
    (mapGet db.items n = some v → parseFloat32 p = some w →
      db.create ⟨some n, some p⟩ =
        (db, ⟨409, "item already exists: " ++ goQuote n ++ "\n"⟩)) ∧
    (parseFloat32 p = some w →
      ((db.create ⟨some n, some p⟩).1.create ⟨some n, some p⟩).2 =
        ⟨409, "item already exists: " ++ goQuote n ++ "\n"⟩) := by
  constructor
  · intro hu hp
    simp [database.create, queryGet, hp, hu]
  · intro hp
    rcases hexist : mapGet db.items n with _ | u
    · have h1 : (db.create ⟨some n, some p⟩).1 = ⟨mapSet db.items n w⟩ := by
        simp [database.create, queryGet, hp, hexist]
      rw [h1]
      have h2 : mapGet (mapSet db.items n w) n = some w := mapGet_mapSet_self _ _ _
      simp [database.create, queryGet, hp, h2]
    · have h1 : (db.create ⟨some n, some p⟩).1 = db := by
        simp [database.create, queryGet, hp, hexist]
      rw [h1]
      simp [database.create, queryGet, hp, hexist]

/-- Witness for C2: `shoes` is seeded, so creating it again conflicts;
`boots` is new, and the second of two consecutive creates conflicts. -/
theorem C2_witness :
    seedDB.create ⟨some "shoes", some "9.5"⟩ =
      (seedDB, ⟨409, "item already exists: " ++ goQuote "shoes" ++ "\n"⟩) ∧
    ((seedDB.create ⟨some "boots", some "40"⟩).1.create ⟨some "boots", some "40"⟩).2 =
      ⟨409, "item already exists: " ++ goQuote "boots" ++ "\n"⟩ :=
  ⟨(C2_create_conflict seedDB "shoes" "9.5" (.finite false 50 0)
      (.finite false 95 (-1))).1 (by decide) (by decide),
   (C2_create_conflict seedDB "boots" "40" (.finite false 50 0)
      (.finite false 40 0)).2 (by decide)⟩

/-- C3: a price string the parser rejects makes both create and update
fail with 400 and the exact `invalid price` body, and the store is
returned completely unchanged. -/
theorem C3_invalid_price (db : database) (n p : String)
    (hp : parseFloat32 p = none) :
    db.create ⟨some n, some p⟩ =
      (db, ⟨400, "invalid price: " ++ goQuote p ++ "\n"⟩) ∧
    db.update ⟨some n, some p⟩ =
      (db, ⟨400, "invalid price: " ++ goQuote p ++ "\n"⟩) := by
  constructor <;> simp [database.create, database.update, queryGet, hp]

/-- Witness for C3 at the seeded store with the unparseable price
`abc`. -/
theorem C3_witness :
    seedDB.create ⟨some "shoes", some "abc"⟩ =
      (seedDB, ⟨400, "invalid price: " ++ goQuote "abc" ++ "\n"⟩) ∧
    seedDB.update ⟨some "shoes", some "abc"⟩ =
      (seedDB, ⟨400, "invalid price: " ++ goQuote "abc" ++ "\n"⟩) :=
  C3_invalid_price seedDB "shoes" "abc" (by decide)

/-- C4: with a parseable price, update of an absent name fails with 404
and the exact `no such item` body leaving the store unchanged, and
update of a present name succeeds with the `updated` body and
overwrites the stored value with the parsed price. -/
theorem C4_update_semantics (db : database) (n p : String) (v : dollars)
    (hp : parseFloat32 p = some v) :
    (mapGet db.items n = none →
      db.update ⟨some n, some p⟩ =
        (db, ⟨404, "no such item: " ++ goQuote n ++ "\n"⟩)) ∧
    (∀ w, mapGet db.items n = some w →
      (db.update ⟨some n, some p⟩).2 =
        ⟨200, "updated " ++ n ++ ": " ++ dollars.String v ++ "\n"⟩ ∧
      mapGet (db.update ⟨some n, some p⟩).1.items n = some v) := by
  constructor
  · intro habs
    simp [database.update, queryGet, hp, habs]
  · intro w hw
    have hstep : db.update ⟨some n, some p⟩ =
        (⟨mapSet db.items n v⟩,
         ⟨200, "updated " ++ n ++ ": " ++ dollars.String v ++ "\n"⟩) := by
      simp [database.update, queryGet, hp, hw]
    rw [hstep]
    exact ⟨rfl, mapGet_mapSet_self _ _ _⟩

/-- Witness for C4: updating the absent `boots` fails with 404, and
updating the seeded `shoes` overwrites its value. -/
theorem C4_witness :
    (seedDB.update ⟨some "boots", some "45"⟩ =
      (seedDB, ⟨404, "no such item: " ++ goQuote "boots" ++ "\n"⟩)) ∧
    ((seedDB.update ⟨some "shoes", some "45"⟩).2 =
      ⟨200, "updated " ++ "shoes" ++ ": " ++ dollars.String (.finite false 45 0) ++ "\n"⟩ ∧
     mapGet (seedDB.update ⟨some "shoes", some "45"⟩).1.items "shoes" =
       some (.finite false 45 0)) :=
  ⟨(C4_update_semantics seedDB "boots" "45" (.finite false 45 0) (by decide)).1 (by decide),
   (C4_update_semantics seedDB "shoes" "45" (.finite false 45 0) (by decide)).2
      (.finite false 50 0) (by decide)⟩

/-- C5: delete of an absent name fails with 404 and the exact `no such
item` body leaving the store unchanged, and delete of a present name
succeeds with the `deleted` body, removes that entry, and leaves every
other entry unchanged. -/
theorem C5_delete_semantics (db : database) (n : String) :
    (mapGet db.items n = none →
      db.delete ⟨some n, none⟩ =
        (db, ⟨404, "no such item: " ++ goQuote n ++ "\n"⟩)) ∧
    (∀ w, mapGet db.items n = some w →
      (db.delete ⟨some n, none⟩).2 = ⟨200, "deleted " ++ n ++ "\n"⟩ ∧
      mapGet (db.delete ⟨some n, none⟩).1.items n = none ∧
      ∀ m, m ≠ n →
        mapGet (db.delete ⟨some n, none⟩).1.items m = mapGet db.items m) := by
  constructor
  · intro habs
    simp [database.delete, queryGet, habs]
  · intro w hw
    have hstep : db.delete ⟨some n, none⟩ =
        (⟨mapDelete db.items n⟩, ⟨200, "deleted " ++ n ++ "\n"⟩) := by
      simp [database.delete, queryGet, hw]
    rw [hstep]
    exact ⟨rfl, mapGet_mapDelete_self _ _,
      fun m hm => mapGet_mapDelete_ne _ _ _ hm⟩

/-- Witness for C5: deleting the absent `boots` fails with 404;
deleting the seeded `socks` removes it and leaves `shoes` intact. -/
theorem C5_witness :
    (seedDB.delete ⟨some "boots", none⟩ =
      (seedDB, ⟨404, "no such item: " ++ goQuote "boots" ++ "\n"⟩)) ∧
    ((seedDB.delete ⟨some "socks", none⟩).2 = ⟨200, "deleted " ++ "socks" ++ "\n"⟩ ∧
     mapGet (seedDB.delete ⟨some "socks", none⟩).1.items "socks" = none ∧
     mapGet (seedDB.delete ⟨some "socks", none⟩).1.items "shoes" =
       mapGet seedDB.items "shoes") :=
  ⟨(C5_delete_semantics seedDB "boots").1 (by decide),
   ((C5_delete_semantics seedDB "socks").2 (.finite false 5 0) (by decide)).1,
   ((C5_delete_semantics seedDB "socks").2 (.finite false 5 0) (by decide)).2.1,
   ((C5_delete_semantics seedDB "socks").2 (.finite false 5 0) (by decide)).2.2
     "shoes" (by decide)⟩

/-- C6 fails as stated: `NaN` is an accepted price string (the code
only requires `strconv.ParseFloat` to succeed), a NaN price is
storable through create, and its display form is `$NaN` — not `$`
followed by a number with exactly two fraction digits. -/
theorem C6_counterexample :
    (seedDB.create ⟨some "widget", some "NaN"⟩).2.status = 200 ∧
    mapGet (seedDB.create ⟨some "widget", some "NaN"⟩).1.items "widget" =
      some .nan ∧
    dollars.String .nan = "$NaN" ∧
    isMoneyForm (dollars.String .nan) = false := by decide

/-- C6 amended: every finite stored price is displayed canonically as
`$`, an optional minus sign, and a number with exactly two fraction
digits (NaN and infinite prices, which are also storable, display as
`$NaN`, `$+Inf`, `$-Inf`); in particular creating `widget` at `9.5`
and fetching it yields the display form `$9.50`. -/
theorem C6_canonical_display (neg : Bool) (mant : ℕ) (exp10 : ℤ) :
    isMoneyForm (dollars.String (.finite neg mant exp10)) = true ∧
    (seedDB.create ⟨some "widget", some "9.5"⟩).1.price ⟨some "widget", none⟩ =
      ⟨200, "$9.50\n"⟩ :=
  ⟨isMoneyForm_finite neg mant exp10, by decide⟩

/-- Sequential serialization of a batch of create requests.  Each
handler body runs under the exclusive lock, so any concurrent
execution of create calls is an interleaving of the whole handler
bodies — that is, some sequential order of them. -/
def runCreates (db : database) (reqs : List Request) : database × List Response :=
  match reqs with
  | [] => (db, [])
  | r :: rest =>
      let first := db.create r
      let out := runCreates first.1 rest
      (out.1, first.2 :: out.2)

theorem countP_replicate (R : Response) (q : Response → Bool) (M : ℕ) :
    (List.replicate M R).countP q = if q R then M else 0 := by
  induction M with
  | zero => simp
  | succ M ih =>
      by_cases h : q R <;> simp [List.replicate_succ, List.countP_cons, ih, h]

theorem runCreates_existing (n p : String) (w : dollars)
    (hp : parseFloat32 p = some w) (M : ℕ) :
    ∀ db : database, (∃ u, mapGet db.items n = some u) →
      runCreates db (List.replicate M ⟨some n, some p⟩) =
        (db, List.replicate M ⟨409, "item already exists: " ++ goQuote n ++ "\n"⟩) := by
  induction M with
  | zero =>
      intro db _
      simp [runCreates]
  | succ M ih =>
      intro db hu
      obtain ⟨u, hu⟩ := hu
      have hstep : db.create ⟨some n, some p⟩ =
          (db, ⟨409, "item already exists: " ++ goQuote n ++ "\n"⟩) := by
        simp [database.create, queryGet, hp, hu]
      simp [List.replicate_succ, runCreates, hstep, ih db ⟨u, hu⟩]

/-- C7: with the handler bodies atomic under the exclusive lock, any
serialization of N create calls for the same new parseable-priced name
yields exactly one 200 response and N-1 responses with status 409, and
the final store holds exactly one entry under that name. -/
theorem C7_create_race (db : database) (n p : String) (v : dollars) (N : ℕ)
    (hN : 1 ≤ N) (habs : mapGet db.items n = none)
    (hp : parseFloat32 p = some v) :
    (runCreates db (List.replicate N ⟨some n, some p⟩)).2.countP
        (fun r => r.status == 200) = 1 ∧
    (runCreates db (List.replicate N ⟨some n, some p⟩)).2.countP
        (fun r => r.status == 409) = N - 1 ∧
    countKey (runCreates db (List.replicate N ⟨some n, some p⟩)).1.items n = 1 := by
  obtain ⟨M, rfl⟩ : ∃ M, N = M + 1 := ⟨N - 1, (Nat.succ_pred_eq_of_pos hN).symm⟩
  have hstep : db.create ⟨some n, some p⟩ =
      (⟨mapSet db.items n v⟩,
       ⟨200, "created " ++ n ++ ": " ++ dollars.String v ++ "\n"⟩) := by
    simp [database.create, queryGet, hp, habs]
  have hrest := runCreates_existing n p v hp M ⟨mapSet db.items n v⟩
    ⟨v, mapGet_mapSet_self _ _ _⟩
  have hrun : runCreates db (List.replicate (M + 1) ⟨some n, some p⟩) =
      (⟨mapSet db.items n v⟩,
       ⟨200, "created " ++ n ++ ": " ++ dollars.String v ++ "\n"⟩ ::
         List.replicate M ⟨409, "item already exists: " ++ goQuote n ++ "\n"⟩) := by
    simp [List.replicate_succ, runCreates, hstep, hrest]
  rw [hrun]
  refine ⟨?_, ?_, countKey_mapSet_new _ _ _ habs⟩
  · simp [List.countP_cons, countP_replicate]
  · simp [List.countP_cons, countP_replicate]

/-- Witness for C7: three racing creates of `boots` at the seeded
store produce one success, two conflicts, and one `boots` entry. -/
theorem C7_witness :
    (runCreates seedDB (List.replicate 3 ⟨some "boots", some "40"⟩)).2.countP
        (fun r => r.status == 200) = 1 ∧
    (runCreates seedDB (List.replicate 3 ⟨some "boots", some "40"⟩)).2.countP
        (fun r => r.status == 409) = 3 - 1 ∧
    countKey (runCreates seedDB (List.replicate 3 ⟨some "boots", some "40"⟩)).1.items
      "boots" = 1 :=
  C7_create_race seedDB "boots" "40" (.finite false 40 0) 3 (by decide) (by decide)
    (by decide)

/-- C8: a mutating handler touches at most the entry named by its
`item` parameter: whether it succeeds or fails, every entry under a
different name is unchanged by create, update and delete. -/
theorem C8_frame (db : database) (req : Request) (m : String)
    (hm : m ≠ queryGet req.item) :
    mapGet (db.create req).1.items m = mapGet db.items m ∧
    mapGet (db.update req).1.items m = mapGet db.items m ∧
    mapGet (db.delete req).1.items m = mapGet db.items m := by
  refine ⟨?_, ?_, ?_⟩
  · rcases hp : parseFloat32 (queryGet req.price) with _ | v
    · simp [database.create, hp]
    · rcases hi : mapGet db.items (queryGet req.item) with _ | w
      · simp [database.create, hp, hi, mapGet_mapSet_ne _ _ _ _ hm]
      · simp [database.create, hp, hi]
  · rcases hp : parseFloat32 (queryGet req.price) with _ | v
    · simp [database.update, hp]
    · rcases hi : mapGet db.items (queryGet req.item) with _ | w
      · simp [database.update, hp, hi]
      · simp [database.update, hp, hi, mapGet_mapSet_ne _ _ _ _ hm]
  · rcases hi : mapGet db.items (queryGet req.item) with _ | w
    · simp [database.delete, hi]
    · simp [database.delete, hi, mapGet_mapDelete_ne _ _ _ hm]

/-- Witness for C8: mutating `shoes` leaves `socks` untouched. -/
theorem C8_witness :
    mapGet (seedDB.create ⟨some "shoes", some "1"⟩).1.items "socks" =
      mapGet seedDB.items "socks" ∧
    mapGet (seedDB.update ⟨some "shoes", some "1"⟩).1.items "socks" =
      mapGet seedDB.items "socks" ∧
    mapGet (seedDB.delete ⟨some "shoes", some "1"⟩).1.items "socks" =
      mapGet seedDB.items "socks" :=
  C8_frame seedDB ⟨some "shoes", some "1"⟩ "socks" (by decide)

/-- C9: a request without an `item` parameter names the empty string:
price, update and delete then fail with 404 for `""` while no
empty-named entry exists, and create with a parseable price succeeds
and inserts the empty-named entry. -/
theorem C9_missing_item (db : database) (p : String) (v : dollars)
    (he : mapGet db.items "" = none) (hp : parseFloat32 p = some v) :
    db.price ⟨none, none⟩ = ⟨404, "no such item: " ++ goQuote "" ++ "\n"⟩ ∧
    db.update ⟨none, some p⟩ =
      (db, ⟨404, "no such item: " ++ goQuote "" ++ "\n"⟩) ∧
    db.delete ⟨none, none⟩ =
      (db, ⟨404, "no such item: " ++ goQuote "" ++ "\n"⟩) ∧
    (db.create ⟨none, some p⟩).2.status = 200 ∧
    mapGet (db.create ⟨none, some p⟩).1.items "" = some v := by
  refine ⟨?_, ?_, ?_, ?_, ?_⟩ <;>
    simp [database.price, database.update, database.delete, database.create,
      queryGet, he, hp, mapGet_mapSet_self]

/-- Witness for C9 at the seeded store with price `40`. -/
theorem C9_witness :
    seedDB.price ⟨none, none⟩ = ⟨404, "no such item: " ++ goQuote "" ++ "\n"⟩ ∧
    seedDB.update ⟨none, some "40"⟩ =
      (seedDB, ⟨404, "no such item: " ++ goQuote "" ++ "\n"⟩) ∧
    seedDB.delete ⟨none, none⟩ =
      (seedDB, ⟨404, "no such item: " ++ goQuote "" ++ "\n"⟩) ∧
    (seedDB.create ⟨none, some "40"⟩).2.status = 200 ∧
    mapGet (seedDB.create ⟨none, some "40"⟩).1.items "" =
      some (.finite false 40 0) :=
  C9_missing_item seedDB "40" (.finite false 40 0) (by decide) (by decide)

/-- C10: price acceptance is exactly success of the modelled
`strconv.ParseFloat(_, 32)` — create and update reply 400 precisely
when the parse fails; a negative number, `NaN` and `Inf` parse and are
stored as prices, while `1e50`, a finite literal beyond float32 range,
is rejected as an invalid price. -/
theorem C10_parse_gate :
    (∀ (db : database) (req : Request),
        (db.create req).2.status = 400 ↔
          parseFloat32 (queryGet req.price) = none) ∧
    (∀ (db : database) (req : Request),
        (db.update req).2.status = 400 ↔
          parseFloat32 (queryGet req.price) = none) ∧
    parseFloat32 "-9.5" = some (.finite true 95 (-1)) ∧
    parseFloat32 "NaN" = some .nan ∧
    parseFloat32 "Inf" = some (.inf false) ∧
    parseFloat32 "1e50" = none ∧
    mapGet (seedDB.create ⟨some "x", some "NaN"⟩).1.items "x" = some .nan ∧
    seedDB.create ⟨some "x", some "1e50"⟩ =
      (seedDB, ⟨400, "invalid price: " ++ goQuote "1e50" ++ "\n"⟩) := by
  refine ⟨?_, ?_, by decide, by decide, by decide, by decide, by decide, by decide⟩
  · intro db req
    rcases hp : parseFloat32 (queryGet req.price) with _ | v
    · simp [database.create, hp]
    · rcases hi : mapGet db.items (queryGet req.item) with _ | w <;>
        simp [database.create, hp, hi]
  · intro db req
    rcases hp : parseFloat32 (queryGet req.price) with _ | v
    · simp [database.update, hp]
    · rcases hi : mapGet db.items (queryGet req.item) with _ | w <;>
        simp [database.update, hp, hi]
